import Mathlib

/-!
Shallow embedding of the core of the `ultimate-recon-ninja` subdomain
reconnaissance engine (Go), together with theorems settling the frozen
claims about its specification.

Conventions of the embedding:
* Go strings are Lean `String`s; byte-level Go operations (`strings.Index`,
  slicing, `len`) are modelled on `List Char` (`String.data`), which agrees
  with Go for ASCII input.
* Go `time.Time` values are modelled as `Nat` instants.
* Go `float64` arithmetic in the diff engine carries only integer counts,
  divisions and a multiplication by 100; it is modelled exactly over `ℚ`.
* Go maps used as tables are modelled as association lists (`List (k × v)`);
  insertion order stands in for Go's (unspecified) iteration order, which
  the stated properties do not depend on.
* Scorer arithmetic (`float64` sums of integer literals) is modelled over
  `Int`; every value the code can produce there is an exact small integer.
-/

namespace Recon

/-! ## Data model, from `internal/types/types.go` -/

/-- `types.HTTPInfo`: HTTP probe results. -/
structure HTTPInfo where
  statusCode : Int
  title : String
  server : String
  contentType : String
  responseTime : Nat
  headers : List (String × String)
  technologies : List String
  deriving DecidableEq, Repr

/-- `types.TLSInfo`: TLS certificate information. -/
structure TLSInfo where
  valid : Bool
  subject : String
  issuer : String
  notBefore : Nat
  notAfter : Nat
  sans : List String
  organization : String
  deriving DecidableEq, Repr

/-- `types.DNSRecords`: multi-valued DNS record slots. -/
structure DNSRecords where
  a : List String
  aaaa : List String
  cname : List String
  mx : List String
  ns : List String
  txt : List String
  deriving DecidableEq, Repr

/-- `types.Subdomain`: the unit of output.  `Metadata` is a Go
`map[string]interface{}`; only first-write-wins key semantics matter, so it
is modelled as an association list with `String` payloads. -/
structure Subdomain where
  domain : String
  ip : List String
  sources : List String
  confidence : Int
  validated : Bool
  firstSeen : Nat
  lastSeen : Nat
  http : Option HTTPInfo
  tls : Option TLSInfo
  dnsRecords : Option DNSRecords
  metadata : List (String × String)
  deriving DecidableEq, Repr

/-- `types.SourceResult`: raw output of one source (error/duration omitted:
the orchestrator only reads `Source` and `Subdomains`). -/
structure SourceResult where
  source : String
  subdomains : List String
  deriving DecidableEq, Repr

/-! ## Orchestrator central table, from `core/orchestrator/orchestrator.go`

The central table `results map[string]*types.Subdomain` is modelled as an
association list with the map's keys as first components. -/

/-- Go map lookup `o.results[k]`. -/
def tableLookup (t : List (String × Subdomain)) (k : String) : Option Subdomain :=
  match t.find? (fun e => e.1 == k) with
  | some e => some e.2
  | none => none

/-- Go map write `o.results[k] = v`: replace the binding if the key is
present, otherwise add it. -/
def tableInsert (t : List (String × Subdomain)) (k : String) (v : Subdomain) :
    List (String × Subdomain) :=
  if t.any (fun e => e.1 == k) then
    t.map (fun e => if e.1 == k then (k, v) else e)
  else
    t ++ [(k, v)]

/-- One iteration of the loop body of `processSourceResult` (lines 189-205):
merge a single reported candidate into the table. -/
def processOne (source : String) (now : Nat)
    (t : List (String × Subdomain)) (cand : String) : List (String × Subdomain) :=
  match tableLookup t cand with
  | some existing =>
      tableInsert t cand
        { existing with
            sources := existing.sources ++ [source]
            lastSeen := now }
  | none =>
      t ++ [(cand, {
        domain := cand
        ip := []
        sources := [source]
        confidence := 0
        validated := false
        firstSeen := now
        lastSeen := now
        http := none
        tls := none
        dnsRecords := none
        metadata := [] })]

/-- `Orchestrator.processSourceResult`: fold the batch of candidates of one
source result into the central table (`time.Now()` is the instant `now`). -/
def processSourceResult (t : List (String × Subdomain)) (result : SourceResult)
    (now : Nat) : List (String × Subdomain) :=
  result.subdomains.foldl (processOne result.source now) t

/-- Inner double loop of `filterWildcardResults` / `RemoveWildcards`:
`true` iff some IP of the record equals some wildcard pattern. -/
def anyIPMatches (ips patterns : List String) : Bool :=
  ips.any (fun ip => patterns.any (fun pattern => ip == pattern))

/-- `Orchestrator.filterWildcardResults` (lines 261-299): keep unvalidated
records; drop a validated record iff one of its IPs matches a wildcard
pattern. -/
def filterWildcardResults (t : List (String × Subdomain)) (patterns : List String) :
    List (String × Subdomain) :=
  t.filter (fun e => !e.2.validated || !anyIPMatches e.2.ip patterns)

/-- `Orchestrator.calculateConfidence` (lines 302-334): the orchestrator's
own confidence computation, applied to every record of the table. -/
def orchestratorScore (sub : Subdomain) : Int :=
  let score : Int := (sub.sources.length : Int) * 10
  let score := score + (if sub.validated then 30 else 0)
  let score := score + (if sub.http.isSome then 20 else 0)
  let score := score + (match sub.tls with
    | some t => if t.valid then 10 else 0
    | none => 0)
  if score > 100 then 100 else score

/-- `calculateConfidence` over the whole table. -/
def calculateConfidence (t : List (String × Subdomain)) : List (String × Subdomain) :=
  t.map (fun e => (e.1, { e.2 with confidence := orchestratorScore e.2 }))

/-- `Orchestrator.getFinalResults`: records meeting
`validation.min_confidence`. -/
def getFinalResults (t : List (String × Subdomain)) (minConfidence : Int) :
    List Subdomain :=
  (t.map Prod.snd).filter (fun sub => sub.confidence ≥ minConfidence)

/-! ## String helpers mirroring Go's `strings` package (ASCII model) -/

/-- Character test of Go `unicode.IsSpace` restricted to ASCII whitespace. -/
def isSpaceChar (c : Char) : Bool :=
  c == ' ' || c == '\t' || c == '\n' || c == '\r' || c == '\x0b' || c == '\x0c'

/-- Go `strings.TrimSpace` on the character list of a string. -/
def trimChars (l : List Char) : List Char :=
  ((l.dropWhile isSpaceChar).reverse.dropWhile isSpaceChar).reverse

/-- Go `strings.TrimSpace`. -/
def goTrimSpace (s : String) : String :=
  ⟨trimChars s.data⟩

/-- Go `strings.ToLower` (ASCII: per-character lowering). -/
def goToLower (s : String) : String :=
  ⟨s.data.map Char.toLower⟩

/-- `sub` occurs as a contiguous sublist of `s`
(Go `strings.Contains(s, sub)`). -/
def containsSubstr : List Char → List Char → Bool
  | [], sub => sub.isEmpty
  | c :: rest, sub => sub.isPrefixOf (c :: rest) || containsSubstr rest sub

/-- Go `strings.Index(s, sub)`: position of the first occurrence, `none`
standing for `-1`. -/
def indexOfSub : List Char → List Char → Option Nat
  | [], sub => if sub.isEmpty then some 0 else none
  | c :: rest, sub =>
      if sub.isPrefixOf (c :: rest) then some 0
      else (indexOfSub rest sub).map (· + 1)

/-- Scanner for `countSubstr`: walk the string left to right; `skip > 0`
means the position lies inside the previously counted occurrence. -/
def countSubstrAux : List Char → List Char → Nat → Nat
  | [], _, _ => 0
  | c :: rest, sub, skip =>
      if skip > 0 then countSubstrAux rest sub (skip - 1)
      else if sub.isPrefixOf (c :: rest) then
        1 + countSubstrAux rest sub (sub.length - 1)
      else countSubstrAux rest sub 0

/-- Go `strings.Count(s, sub)` for non-empty `sub`: number of leftmost
non-overlapping occurrences. -/
def countSubstr (s sub : List Char) : Nat :=
  countSubstrAux s sub 0

/-- `parts[0]` of Go `strings.Split(s, ".")`: the prefix of `s` up to the
first dot (the whole of `s` if it has no dot). -/
def firstLabel (s : String) : List Char :=
  s.data.takeWhile (fun c => c ≠ '.')

/-! ## Deduplicator, from `intelligence/dedup/deduplicator.go` -/

/-- The seen-set append loop shared by `merge` (sources, IPs): extend `a` by
the elements of `b` not already present. -/
def dedupAppend (a b : List String) : List String :=
  b.foldl (fun acc s => if s ∈ acc then acc else acc ++ [s]) a

/-- `Deduplicator.mergeStringSlice`: rebuild from an empty seen set, so the
result is `a ++ b` with all duplicates removed. -/
def mergeStringSlice (a b : List String) : List String :=
  dedupAppend (dedupAppend [] a) b

/-- `Deduplicator.mergeDNSRecords`. -/
def mergeDNSRecords (target source : DNSRecords) : DNSRecords where
  a := mergeStringSlice target.a source.a
  aaaa := mergeStringSlice target.aaaa source.aaaa
  cname := mergeStringSlice target.cname source.cname
  mx := mergeStringSlice target.mx source.mx
  ns := mergeStringSlice target.ns source.ns
  txt := mergeStringSlice target.txt source.txt

/-- Metadata merge loop of `Deduplicator.merge`: per-key first-write-wins. -/
def mergeMetadata (target source : List (String × String)) : List (String × String) :=
  source.foldl
    (fun acc kv => if acc.any (fun e => e.1 == kv.1) then acc else acc ++ [kv])
    target

/-- `Deduplicator.merge` (lines 66-142): combine a new record into the
existing one for the same (normalized) domain. -/
def dedupMerge (target source : Subdomain) : Subdomain where
  domain := target.domain
  sources := dedupAppend target.sources source.sources
  ip := if source.ip.length > 0 then dedupAppend target.ip source.ip else target.ip
  confidence := target.confidence
  validated := target.validated || source.validated
  firstSeen := if source.firstSeen < target.firstSeen then source.firstSeen else target.firstSeen
  lastSeen := if target.lastSeen < source.lastSeen then source.lastSeen else target.lastSeen
  http :=
    match source.http, target.http with
    | none, th => th
    | some sh, none => some sh
    | some sh, some th => if sh.statusCode > th.statusCode then some sh else some th
  tls :=
    match source.tls with
    | some st =>
        if st.valid then
          match target.tls with
          | none => some st
          | some tt => if !tt.valid then some st else some tt
        else target.tls
    | none => target.tls
  dnsRecords :=
    match source.dnsRecords, target.dnsRecords with
    | none, td => td
    | some sd, none => some sd
    | some sd, some td => some (mergeDNSRecords td sd)
  metadata := mergeMetadata target.metadata source.metadata

/-- Domain normalization applied by `Deduplicate` (line 38):
`strings.ToLower(strings.TrimSpace(d))`. -/
def normalizeDomain (d : String) : String :=
  goToLower (goTrimSpace d)

/-- Loop body of `Deduplicator.Deduplicate` over the `domainMap`. -/
def dedupStep (m : List (String × Subdomain)) (sub : Subdomain) :
    List (String × Subdomain) :=
  let normalized := normalizeDomain sub.domain
  match tableLookup m normalized with
  | some existing => tableInsert m normalized (dedupMerge existing sub)
  | none => m ++ [(normalized, { sub with domain := normalized })]

/-- `Deduplicator.Deduplicate` (lines 27-63): group records by the
normalized domain, merging collisions; return the map's values. -/
def Deduplicate (subdomains : List Subdomain) : List Subdomain :=
  (subdomains.foldl dedupStep []).map Prod.snd

/-- `Deduplicator.RemoveWildcards` (lines 259-301): identity on an empty
pattern list; otherwise drop every record one of whose IPs matches a
wildcard pattern. -/
def RemoveWildcards (subdomains : List Subdomain) (wildcardPatterns : List String) :
    List Subdomain :=
  if wildcardPatterns.length = 0 then subdomains
  else subdomains.filter (fun sub => !anyIPMatches sub.ip wildcardPatterns)

/-- The pattern list of `isNoise`. -/
def noisePatterns : List String :=
  ["wildcard-test", "test-test-test", "asdfasdf", "xxxxxxxxxx",
   "localhost", "invalid", "example", "_domainkey", "_dmarc"]

/-- `Deduplicator.isNoise` (lines 327-365).  Note: the pattern containment
test runs on the whole lowercased domain; the length, digit-run and hyphen
tests run on its first label. -/
def isNoise (sub : Subdomain) : Bool :=
  let domain := goToLower sub.domain
  let first := firstLabel domain
  noisePatterns.any (fun pattern => containsSubstr domain.data pattern.data)
    || first.length > 60
    || countSubstr first "0123456789".data > 20
    || countSubstr first "-".data > 8

/-- `Deduplicator.RemoveNoise` (lines 304-324). -/
def RemoveNoise (subdomains : List Subdomain) : List Subdomain :=
  subdomains.filter (fun sub => !isNoise sub)

/-! ## Confidence scorer, from `intelligence/scorer/scorer.go`

All `float64` values of the component functions are sums of integer
literals, hence exact; they are modelled over `Int`.  The source-credibility
component uses `math.Log2` and is left as a parameter of `Score` (see
`scorerScore`). -/

/-- `hasCommonPattern` (lines 227-252): first label equals a common name,
or has it as hyphenated prefix/suffix. -/
def hasCommonPattern (domain : String) : Bool :=
  let commonPatterns : List String :=
    ["www", "api", "mail", "ftp", "smtp", "pop", "imap",
     "dev", "staging", "stage", "test", "qa", "prod", "production",
     "admin", "portal", "dashboard", "app", "mobile", "m",
     "blog", "shop", "store", "cdn", "static", "assets",
     "vpn", "remote", "secure", "login", "auth",
     "us", "eu", "asia", "uk", "ca"]
  let first := firstLabel domain
  commonPatterns.any (fun pattern =>
    first == pattern.data
      || (pattern.data ++ ['-']).isPrefixOf first
      || ('-' :: pattern.data).isSuffixOf first)

/-- `hasSuspiciousPattern` (lines 255-285): suspicious substring of the
lowercased domain, first label longer than 50 characters, or first label
with more than 5 hyphens. -/
def hasSuspiciousPattern (domain : String) : Bool :=
  let suspicious : List String :=
    ["wildcard-test", "random", "localhost", "invalid", "example",
     "test-test-test"]
  let domainLower := goToLower domain
  suspicious.any (fun pattern => containsSubstr domainLower.data pattern.data)
    || (firstLabel domain).length > 50
    || countSubstr (firstLabel domain) "-".data > 5

/-- `Scorer.calculateValidationScore` (lines 119-147). -/
def calculateValidationScore (sub : Subdomain) : Int :=
  (if sub.validated && sub.ip.length > 0 then
    15 + (if sub.ip.length > 1 then 3 else 0)
  else 0)
  + (match sub.http with
    | some h =>
        if 200 ≤ h.statusCode && h.statusCode < 400 then 10
        else if 400 ≤ h.statusCode && h.statusCode < 500 then 5
        else 0
    | none => 0)
  + (match sub.tls with
    | some t => if t.valid then 5 else 0
    | none => 0)

/-- `Scorer.calculateResponseScore` (lines 150-178). -/
def calculateResponseScore (sub : Subdomain) : Int :=
  match sub.http with
  | none => 0
  | some h =>
      (if h.statusCode > 0 then 5 else 0)
      + (if h.title ≠ "" && h.title.data.length > 3 then 5 else 0)
      + (if h.server ≠ "" then 3 else 0)
      + (if h.technologies.length > 0 then 7 else 0)

/-- `Scorer.calculatePatternScore` (lines 181-208). -/
def calculatePatternScore (sub : Subdomain) : Int :=
  let score : Int :=
    (if hasCommonPattern sub.domain then 5 else 0)
    + (if (firstLabel sub.domain).length < 15 then 3 else 0)
    - (if hasSuspiciousPattern sub.domain then 5 else 0)
  if score < 0 then 0 else score

/-- `Scorer.Score` (lines 55-87) with the source-credibility component
(`calculateSourceScore`, which uses floating `math.Log2`) abstracted as the
parameter `sourceScore`: the source component is clamped to 40, the sum of
the four components to 100; the validation/response/pattern components are
added unclamped. -/
def scorerScore (sourceScore : Int) (sub : Subdomain) : Int :=
  let total := (if sourceScore ≤ 40 then sourceScore else 40)
    + calculateValidationScore sub
    + calculateResponseScore sub
    + calculatePatternScore sub
  if total ≤ 100 then total else 100

/-! ## Diff engine, from `src/unnamed/part_003` (package `diff`) -/

/-- `diff.DiffResult`.  `ChangePercent` (`float64` in Go) is modelled over
`ℚ`: the code divides two integer counts and multiplies by 100. -/
structure DiffResult where
  added : List String
  removed : List String
  unchanged : List String
  totalOld : Nat
  totalNew : Nat
  changePercent : ℚ
  deriving DecidableEq, Repr

/-- `Differ.Compare` (lines 39-112) on the two loaded name lists: membership
maps stand in for `oldMap`/`newMap`. -/
def Compare (oldSubdomains newSubdomains : List String) : DiffResult where
  added := newSubdomains.filter (fun sub => !oldSubdomains.contains sub)
  removed := oldSubdomains.filter (fun sub => !newSubdomains.contains sub)
  unchanged := newSubdomains.filter (fun sub => oldSubdomains.contains sub)
  totalOld := oldSubdomains.length
  totalNew := newSubdomains.length
  changePercent :=
    let totalChanges :=
      (newSubdomains.filter (fun sub => !oldSubdomains.contains sub)).length
        + (oldSubdomains.filter (fun sub => !newSubdomains.contains sub)).length
    let totalSubdomains := oldSubdomains.length + newSubdomains.length
    if totalSubdomains > 0 then
      ((totalChanges : ℚ) / (totalSubdomains : ℚ)) * 100
    else 0

/-- `diff.TrendAnalysis`. -/
structure TrendAnalysis where
  totalChanges : Nat
  addedCount : Nat
  removedCount : Nat
  trend : String
  deriving DecidableEq, Repr

/-- Trend decision chain of `Differ.DetectTrends` (lines 229-239). -/
def determineTrend (addedCount removedCount : Nat) : String :=
  if addedCount > removedCount * 2 then "rapid_growth"
  else if removedCount > addedCount * 2 then "rapid_decline"
  else if addedCount > removedCount then "growth"
  else if removedCount > addedCount then "decline"
  else "stable"

/-- `Differ.DetectTrends` (lines 201-249) on the loaded change-type list:
count `added` and `removed` change records, then classify. -/
def DetectTrends (changeTypes : List String) : TrendAnalysis :=
  let addedCount := changeTypes.count "added"
  let removedCount := changeTypes.count "removed"
  { totalChanges := changeTypes.length
    addedCount := addedCount
    removedCount := removedCount
    trend := determineTrend addedCount removedCount }

/-! ## AI engine, from `ai/engine/engine.go`

The mutable engine (`recursionDepth`, `maxRecursionDepth`, `cache`) is
modelled as an explicit state.  The backend call
(`prompts.Render` + `client.Generate` + `parseWordlist`) is abstracted as an
oracle from the prompt inputs to the parsed suggestion list; the third
component of the result records whether the backend was contacted. -/

/-- Mutable state of `engine.Engine`. -/
structure EngineState where
  recursionDepth : Nat
  maxRecursionDepth : Nat
  cache : List (String × List String)
  deriving DecidableEq, Repr

/-- `NewEngine`: depth 0, `maxRecursionDepth = 3`, empty cache. -/
def newEngineState : EngineState :=
  { recursionDepth := 0, maxRecursionDepth := 3, cache := [] }

/-- `Engine.getCache` hit test: a Go map lookup yields a non-nil slice.
(Values stored by `parseWordlist` are nil exactly when empty, so a hit is a
present, non-empty entry.) -/
def cacheHit (cache : List (String × List String)) (key : String) :
    Option (List String) :=
  match cache.find? (fun e => e.1 == key) with
  | some (_, x :: xs) => some (x :: xs)
  | _ => none

/-- `Engine.setCache`. -/
def setCache (cache : List (String × List String)) (key : String)
    (value : List String) : List (String × List String) :=
  if cache.any (fun e => e.1 == key) then
    cache.map (fun e => if e.1 == key then (key, value) else e)
  else
    cache ++ [(key, value)]

/-- Guarded depth increment at the top of `RecursiveDiscovery`
(lines 171-178): fail when `recursionDepth >= maxRecursionDepth`, else
increment. -/
def tryEnterRecursion (s : EngineState) : Option EngineState :=
  if s.recursionDepth ≥ s.maxRecursionDepth then none
  else some { s with recursionDepth := s.recursionDepth + 1 }

/-- `Engine.RecursiveDiscovery` (lines 169-218).  Returns the call result,
the engine state after the deferred depth decrement, and whether the
backend was contacted. -/
def recursiveDiscovery (s : EngineState) (subdomain purpose : String)
    (backend : String → String → List String) :
    Except String (List String) × EngineState × Bool :=
  if s.recursionDepth ≥ s.maxRecursionDepth then
    (Except.error "max recursion depth reached", s, false)
  else
    let cacheKey := "recursive:" ++ subdomain ++ ":" ++ purpose
    match cacheHit s.cache cacheKey with
    | some cached => (Except.ok cached, s, false)
    | none =>
        let suggestions := backend subdomain purpose
        (Except.ok suggestions,
          { s with cache := setCache s.cache cacheKey suggestions }, true)

/-! ## HTTP prober, from `src/unnamed/part_005` (package `prober`) -/

/-- `prober.extractTitle` (lines 167-190): locate `<title>` and `</title>`
case-insensitively, trim the enclosed text, and truncate to 100 characters
plus an appended `"..."` when longer. -/
def extractTitle (html : String) : String :=
  match indexOfSub (html.data.map Char.toLower) "<title>".data with
  | none => ""
  | some idx =>
      let start := idx + 7
      let rest := html.data.drop start
      match indexOfSub (rest.map Char.toLower) "</title>".data with
      | none => ""
      | some stop =>
          let title := trimChars (rest.take stop)
          if title.length > 100 then ⟨title.take 100 ++ "...".data⟩
          else ⟨title⟩

/-! ## Concrete records used by counterexamples and witnesses -/

/-- A subdomain record with every optional field empty. -/
def baseSubdomain (d : String) : Subdomain where
  domain := d
  ip := []
  sources := []
  confidence := 0
  validated := false
  firstSeen := 0
  lastSeen := 0
  http := none
  tls := none
  dnsRecords := none
  metadata := []

/-- A validated record that maximizes every validation-score clause:
DNS-validated with two IPs, HTTP 200, valid TLS. -/
def fullValidationSub : Subdomain :=
  { baseSubdomain "longfirstlabelname.target.com" with
      validated := true
      ip := ["1.1.1.1", "2.2.2.2"]
      http := some { statusCode := 200, title := "", server := "",
                     contentType := "", responseTime := 0, headers := [],
                     technologies := [] }
      tls := some { valid := true, subject := "", issuer := "", notBefore := 0,
                    notAfter := 0, sans := [], organization := "" } }

/-! ## Claims -/

/-- C3: the spec caps the validation component of the confidence score at
30 (`+15` DNS, `+3` for two or more IPs, `+10` for HTTP 2xx/3xx, `+5` for
valid TLS), and the code's own comment in `Score` reads
"Validation status (max 30 points)" — but `calculateValidationScore`
applies no such cap and attains `15 + 3 + 10 + 5 = 33`, which `Score` adds
into the total unclamped (total `38` here against source score `0`,
response `5`, pattern `0`).  This theorem evaluates the code at the failing
input. -/
theorem validation_score_exceeds_cap :
    calculateValidationScore fullValidationSub = 33
      ∧ 30 < calculateValidationScore fullValidationSub
      ∧ scorerScore 0 fullValidationSub = 38 := by
  refine ⟨by decide, by decide, by decide⟩

/-- C8: trend classification over the last K change records with
A = added count and R = removed count: `rapid_growth` when `A > 2R`,
`rapid_decline` when `R > 2A`, `growth` when `A > R` but not rapid,
`decline` when `R > A` but not rapid, `stable` when `A = R`. -/
theorem trend_classification_correct (changeTypes : List String) :
    ((DetectTrends changeTypes).addedCount > 2 * (DetectTrends changeTypes).removedCount →
      (DetectTrends changeTypes).trend = "rapid_growth")
    ∧ ((DetectTrends changeTypes).removedCount > 2 * (DetectTrends changeTypes).addedCount →
      (DetectTrends changeTypes).trend = "rapid_decline")
    ∧ ((DetectTrends changeTypes).addedCount > (DetectTrends changeTypes).removedCount →
      (DetectTrends changeTypes).addedCount ≤ 2 * (DetectTrends changeTypes).removedCount →
      (DetectTrends changeTypes).trend = "growth")
    ∧ ((DetectTrends changeTypes).removedCount > (DetectTrends changeTypes).addedCount →
      (DetectTrends changeTypes).removedCount ≤ 2 * (DetectTrends changeTypes).addedCount →
      (DetectTrends changeTypes).trend = "decline")
    ∧ ((DetectTrends changeTypes).addedCount = (DetectTrends changeTypes).removedCount →
      (DetectTrends changeTypes).trend = "stable") := by
  simp only [DetectTrends, determineTrend]
  refine ⟨?_, ?_, ?_, ?_, ?_⟩ <;>
    · intros
      split_ifs <;> first | rfl | omega

/-- Witness for C8 at a concrete change history: three additions and one
removal classify as `rapid_growth`. -/
theorem trend_classification_correct_witness :
    (DetectTrends ["added", "added", "added", "removed"]).trend = "rapid_growth" :=
  (trend_classification_correct ["added", "added", "added", "removed"]).1 (by decide)

/-- C9: `RecursiveDiscovery`'s depth guard: with the depth counter at least
`maxRecursionDepth = 3` the call fails immediately — the backend is not
contacted and the cache is untouched — and three nested (still-pending)
entries from a fresh engine drive the counter to exactly 3, so a fourth
nested call fails this way. -/
theorem ai_recursion_guard (s : EngineState) (subdomain purpose : String)
    (backend : String → String → List String) (cache : List (String × List String))
    (h1 : s.maxRecursionDepth = 3) (h2 : 3 ≤ s.recursionDepth) :
    recursiveDiscovery s subdomain purpose backend
        = (Except.error "max recursion depth reached", s, false)
    ∧ (tryEnterRecursion { newEngineState with cache := cache }).bind
        (fun s1 => (tryEnterRecursion s1).bind tryEnterRecursion)
        = some { recursionDepth := 3, maxRecursionDepth := 3, cache := cache } := by
  constructor
  · simp only [recursiveDiscovery, h1]
    rw [if_pos h2]
  · rfl

/-- A concrete engine state at the recursion limit, used by the C9
witness. -/
def depthThreeEngine : EngineState where
  recursionDepth := 3
  maxRecursionDepth := 3
  cache := [("recursive:a:b", ["x"])]

/-- Witness for C9: a concrete engine at depth 3 with a non-empty cache. -/
theorem ai_recursion_guard_witness :
    recursiveDiscovery depthThreeEngine "a" "b" (fun _ _ => ["y"])
      = (Except.error "max recursion depth reached", depthThreeEngine, false) :=
  (ai_recursion_guard depthThreeEngine "a" "b" (fun _ _ => ["y"]) []
      rfl (by decide)).1

set_option maxRecDepth 40000 in
/-- C10 counterexample: a body whose `<title>` text is 101 characters long
yields a stored title of length 103 (`title[:100] + "..."`), refuting the
claim that the stored title is at most 100 characters. -/
theorem title_truncation_exceeds_100 :
    (extractTitle ("<title>" ++ String.mk (List.replicate 101 'a') ++ "</title>")).length = 103
    ∧ 100 < (extractTitle ("<title>" ++ String.mk (List.replicate 101 'a') ++ "</title>")).length := by
  refine ⟨by decide, by decide⟩

/-- C10 as amended: the stored title is at most 103 characters long — the
extracted `<title>` text when it fits in 100 characters, otherwise its
first 100 characters with `"..."` appended. -/
theorem title_length_amended (html : String) :
    (extractTitle html).length ≤ 103 := by
  unfold extractTitle
  split
  · decide
  · dsimp only
    split
    · decide
    · split
      · next hlen =>
          simp only [String.length, List.length_append, List.length_take,
            List.length_cons, List.length_nil]
          omega
      · next hlen =>
          simp only [String.length]
          omega

/-- A validated record whose IP set `{1.2.3.4, 5.6.7.8}` is only partially
covered by the wildcard pattern set `{1.2.3.4}`. -/
def partialOverlapSub : Subdomain :=
  { baseSubdomain "foo.ex.com" with
      validated := true
      ip := ["1.2.3.4", "5.6.7.8"] }

/-- C1 counterexample: both wildcard filters drop a validated record as
soon as one of its IPs matches a pattern — a record whose IP set is a
strict superset of the matched IPs (so not fully contained in
`pattern_ips`) is dropped, where the claim says it is kept. -/
theorem wildcard_partial_overlap_dropped :
    filterWildcardResults [("foo.ex.com", partialOverlapSub)] ["1.2.3.4"] = []
    ∧ RemoveWildcards [partialOverlapSub] ["1.2.3.4"] = []
    ∧ ¬(∀ ip ∈ partialOverlapSub.ip, ip ∈ ["1.2.3.4"]) := by
  refine ⟨by decide, by decide, by decide⟩

/-- C1 as amended: wildcard filtering drops a candidate iff it is validated
and AT LEAST ONE IP of its A-record set is contained in `pattern_ips`
(`filterWildcardResults` always keeps unvalidated records;
`RemoveWildcards` is the identity for an empty pattern list and otherwise
drops exactly the records with a matching IP). -/
theorem wildcard_filter_amended (t : List (String × Subdomain))
    (patterns : List String) (k : String) (sub : Subdomain)
    (subs : List Subdomain) (x : Subdomain) (hp : patterns ≠ []) :
    ((k, sub) ∈ filterWildcardResults t patterns ↔
      (k, sub) ∈ t ∧ (sub.validated = false ∨ anyIPMatches sub.ip patterns = false))
    ∧ RemoveWildcards subs [] = subs
    ∧ (x ∈ RemoveWildcards subs patterns ↔
        x ∈ subs ∧ anyIPMatches x.ip patterns = false) := by
  refine ⟨?_, ?_, ?_⟩
  · simp [filterWildcardResults, List.mem_filter]
  · simp [RemoveWildcards]
  · rw [RemoveWildcards, if_neg (by simpa using hp)]
    simp [List.mem_filter]

/-- Witness for C1 (amended) at concrete values: an unvalidated record with
a non-matching IP survives a non-empty pattern list. -/
theorem wildcard_filter_amended_witness :
    baseSubdomain "b.ex.com" ∈ RemoveWildcards [baseSubdomain "b.ex.com"] ["1.2.3.4"] ↔
      baseSubdomain "b.ex.com" ∈ [baseSubdomain "b.ex.com"]
        ∧ anyIPMatches (baseSubdomain "b.ex.com").ip ["1.2.3.4"] = false :=
  (wildcard_filter_amended [] ["1.2.3.4"] "k" (baseSubdomain "k")
    [baseSubdomain "b.ex.com"] (baseSubdomain "b.ex.com") (by decide)).2.2

/-- The single-source batch of spec scenario 2: certificate transparency
reports `www.example.com` and `api.example.com`. -/
def ctBatch : SourceResult where
  source := "certificate_transparency"
  subdomains := ["www.example.com", "api.example.com"]

/-- The record the orchestrator builds for `www.example.com` in scenario 2
after confidence scoring. -/
def wwwRecord (now : Nat) : Subdomain :=
  { baseSubdomain "www.example.com" with
      sources := ["certificate_transparency"]
      confidence := 10
      firstSeen := now
      lastSeen := now }

/-- The record the orchestrator builds for `api.example.com` in scenario 2
after confidence scoring. -/
def apiRecord (now : Nat) : Subdomain :=
  { baseSubdomain "api.example.com" with
      sources := ["certificate_transparency"]
      confidence := 10
      firstSeen := now
      lastSeen := now }

/-- C2 counterexample: in the single-source scenario the orchestrator's
`calculateConfidence` assigns `len(sources) * 10 = 10` to each record (it
never consults the scorer's per-source weights), not the claimed 15. -/
theorem single_source_confidence_not_15 :
    (getFinalResults (calculateConfidence (processSourceResult [] ctBatch 0)) 0).map
        (fun sub => sub.confidence) = [10, 10]
    ∧ ((10 : Int) = 15 → False) := by
  refine ⟨by decide, by decide⟩

/-- C2 as amended: with one source (`certificate_transparency`) reporting
the two names and DNS validation disabled, the final set — for any
`min_confidence` threshold at most 10 — contains exactly two records, each
with the single source, `validated = false`, and confidence 10
(`#sources × 10`; the orchestrator's `calculateConfidence` ignores source
weights and the `log₂` bonus). -/
theorem single_source_scenario_amended (now : Nat) (minConfidence : Int)
    (h : minConfidence ≤ 10) :
    getFinalResults (calculateConfidence (processSourceResult [] ctBatch now))
        minConfidence = [wwwRecord now, apiRecord now] := by
  have e : calculateConfidence (processSourceResult [] ctBatch now)
      = [("www.example.com", wwwRecord now), ("api.example.com", apiRecord now)] := rfl
  have h10 : decide ((wwwRecord now).confidence ≥ minConfidence) = true :=
    decide_eq_true h
  have h10b : decide ((apiRecord now).confidence ≥ minConfidence) = true :=
    decide_eq_true h
  rw [getFinalResults, e]
  simp only [List.map, List.filter, h10, h10b]

/-- Witness for C2 (amended) at `now = 5`, `min_confidence = 0`. -/
theorem single_source_scenario_amended_witness :
    getFinalResults (calculateConfidence (processSourceResult [] ctBatch 5)) 0
      = [wwwRecord 5, apiRecord 5] :=
  single_source_scenario_amended 5 0 (by norm_num)

/-- Each occurrence counted by `countSubstrAux` consumes `sub.length`
positions of the scanned string (the skip region accounts for the tail of
the occurrence currently being passed over). -/
lemma countSubstrAux_mul_le (sub : List Char) :
    ∀ (s : List Char) (skip : Nat),
      sub.length * countSubstrAux s sub skip + skip ≤ max s.length skip
  | [], skip => by simp [countSubstrAux]
  | c :: rest, skip => by
      simp only [countSubstrAux]
      split_ifs with h1 h2
      · have ih := countSubstrAux_mul_le sub rest (skip - 1)
        simp only [List.length_cons]
        omega
      · have ih := countSubstrAux_mul_le sub rest (sub.length - 1)
        have hlen : sub.length ≤ rest.length + 1 :=
          (List.isPrefixOf_iff_prefix.mp h2).length_le
        simp only [List.length_cons]
        have hmul : sub.length * (1 + countSubstrAux rest sub (sub.length - 1))
            = sub.length + sub.length * countSubstrAux rest sub (sub.length - 1) := by
          ring
        omega
      · have ih := countSubstrAux_mul_le sub rest 0
        simp only [List.length_cons]
        omega

/-- `strings.Count(s, sub) * len(sub) ≤ len(s)`. -/
lemma countSubstr_mul_le (s sub : List Char) :
    sub.length * countSubstr s sub ≤ s.length := by
  have h := countSubstrAux_mul_le sub s 0
  simp only [countSubstr]
  omega

/-- C6 counterexample: `isNoise` tests the noise patterns against the
whole lowercased domain, so `www.example.com` — whose first label `www`
contains no noise pattern, is 3 characters long and has no hyphens — is
dropped as noise because the registered domain contains `example`. -/
theorem noise_filter_whole_domain :
    isNoise (baseSubdomain "www.example.com") = true
    ∧ RemoveNoise [baseSubdomain "www.example.com"] = []
    ∧ (∀ p ∈ noisePatterns,
        containsSubstr (firstLabel (goToLower (baseSubdomain "www.example.com").domain))
          p.data = false)
    ∧ (firstLabel (goToLower (baseSubdomain "www.example.com").domain)).length ≤ 60
    ∧ countSubstr (firstLabel (goToLower (baseSubdomain "www.example.com").domain))
        "-".data ≤ 8 := by
  refine ⟨by decide, by decide, by decide, by decide, by decide⟩

/-- C6 as amended: `RemoveNoise` drops exactly the records satisfying
`isNoise`, and a record is noise iff a noise pattern occurs somewhere in
the WHOLE lowercased domain (not just its first label), or the first label
exceeds 60 characters, or the first label has more than 8 hyphens.  (The
code's fourth clause — more than 20 occurrences of the literal substring
`0123456789` in the first label — is subsumed by the 60-character clause,
since 21 disjoint occurrences need at least 210 characters.) -/
theorem noise_filter_amended (subs : List Subdomain) (sub : Subdomain) :
    RemoveNoise subs = subs.filter (fun s => !isNoise s)
    ∧ (isNoise sub = true ↔
        (∃ p ∈ noisePatterns,
          containsSubstr (goToLower sub.domain).data p.data = true)
        ∨ 60 < (firstLabel (goToLower sub.domain)).length
        ∨ 8 < countSubstr (firstLabel (goToLower sub.domain)) "-".data) := by
  constructor
  · rfl
  · simp only [isNoise, Bool.or_eq_true, List.any_eq_true, decide_eq_true_eq]
    constructor
    · rintro (((h | h) | h) | h)
      · exact Or.inl h
      · exact Or.inr (Or.inl h)
      · refine Or.inr (Or.inl ?_)
        have hb := countSubstr_mul_le (firstLabel (goToLower sub.domain))
          ['0', '1', '2', '3', '4', '5', '6', '7', '8', '9']
        have h10 : (['0', '1', '2', '3', '4', '5', '6', '7', '8', '9'] : List Char).length = 10 :=
          rfl
        rw [h10] at hb
        omega
      · exact Or.inr (Or.inr h)
    · rintro (h | h | h)
      · exact Or.inl (Or.inl (Or.inl h))
      · exact Or.inl (Or.inl (Or.inr h))
      · exact Or.inr h

/-- A list's length splits over a filter and its complement. -/
lemma length_filter_split (p : String → Bool) (l : List String) :
    (l.filter p).length + (l.filter (fun s => !p s)).length = l.length := by
  induction l with
  | nil => simp
  | cons a t ih =>
      by_cases h : p a <;> simp [List.filter_cons, h] <;> omega

/-- Two duplicate-free lists with the same members have the same length. -/
lemma length_eq_of_nodup_of_mem_iff {a b : List String}
    (ha : a.Nodup) (hb : b.Nodup) (h : ∀ x, x ∈ a ↔ x ∈ b) :
    a.length = b.length := by
  rw [← List.toFinset_card_of_nodup ha, ← List.toFinset_card_of_nodup hb]
  congr 1
  ext x
  simpa using h x

/-- C7: on duplicate-free scan name lists, `Compare` returns
`added = new \ old`, `removed = old \ new`, `unchanged = old ∩ new`, and
`change_percent = 100·(|added|+|removed|)/(|old|+|new|)` (0 when both
inputs are empty); hence added and removed are disjoint, the three parts
cover `old ∪ new`, and `|unchanged| + |removed| = |old|`.  (`float64`
arithmetic is modelled exactly over `ℚ`.) -/
theorem diff_compare_correct (oldS newS : List String)
    (hold : oldS.Nodup) (hnew : newS.Nodup) :
    (∀ x, x ∈ (Compare oldS newS).added ↔ x ∈ newS ∧ x ∉ oldS)
    ∧ (∀ x, x ∈ (Compare oldS newS).removed ↔ x ∈ oldS ∧ x ∉ newS)
    ∧ (∀ x, x ∈ (Compare oldS newS).unchanged ↔ x ∈ oldS ∧ x ∈ newS)
    ∧ (oldS = [] → newS = [] → (Compare oldS newS).changePercent = 0)
    ∧ (oldS.length + newS.length ≠ 0 →
        (Compare oldS newS).changePercent
          = 100 * (((Compare oldS newS).added.length : ℚ)
                + ((Compare oldS newS).removed.length : ℚ))
              / ((oldS.length : ℚ) + (newS.length : ℚ)))
    ∧ (∀ x, ¬(x ∈ (Compare oldS newS).added ∧ x ∈ (Compare oldS newS).removed))
    ∧ (∀ x, (x ∈ (Compare oldS newS).added ∨ x ∈ (Compare oldS newS).removed
          ∨ x ∈ (Compare oldS newS).unchanged) ↔ (x ∈ oldS ∨ x ∈ newS))
    ∧ (Compare oldS newS).unchanged.length + (Compare oldS newS).removed.length
        = oldS.length := by
  have hadd : ∀ x, x ∈ (Compare oldS newS).added ↔ x ∈ newS ∧ x ∉ oldS := by
    intro x
    simp [Compare, List.mem_filter]
  have hrem : ∀ x, x ∈ (Compare oldS newS).removed ↔ x ∈ oldS ∧ x ∉ newS := by
    intro x
    simp [Compare, List.mem_filter]
  have hunch : ∀ x, x ∈ (Compare oldS newS).unchanged ↔ x ∈ oldS ∧ x ∈ newS := by
    intro x
    simp [Compare, List.mem_filter, and_comm]
  refine ⟨hadd, hrem, hunch, ?_, ?_, ?_, ?_, ?_⟩
  · rintro rfl rfl
    simp [Compare]
  · intro hne
    have hpos : 0 < oldS.length + newS.length := Nat.pos_of_ne_zero hne
    simp only [Compare, if_pos hpos]
    push_cast
    ring
  · intro x ⟨hx1, hx2⟩
    exact ((hadd x).mp hx1).2 ((hrem x).mp hx2).1
  · intro x
    constructor
    · rintro (h | h | h)
      · exact Or.inr ((hadd x).mp h).1
      · exact Or.inl ((hrem x).mp h).1
      · exact Or.inl ((hunch x).mp h).1
    · intro h
      by_cases ho : x ∈ oldS <;> by_cases hn : x ∈ newS
      · exact Or.inr (Or.inr ((hunch x).mpr ⟨ho, hn⟩))
      · exact Or.inr (Or.inl ((hrem x).mpr ⟨ho, hn⟩))
      · exact Or.inl ((hadd x).mpr ⟨hn, ho⟩)
      · rcases h with h | h
        · exact absurd h ho
        · exact absurd h hn
  · have e1 : (Compare oldS newS).unchanged.length
        = (oldS.filter (fun s => newS.contains s)).length := by
      refine length_eq_of_nodup_of_mem_iff (hnew.filter _) (hold.filter _) ?_
      intro x
      have := hunch x
      simp only [List.mem_filter] at this ⊢
      constructor
      · intro hx
        have hx2 := this.mp (by simpa [Compare, List.mem_filter] using hx)
        simpa using ⟨hx2.1, hx2.2⟩
      · intro hx
        simp only [List.elem_iff] at hx
        have hx2 := this.mpr ⟨hx.1, by simpa using hx.2⟩
        simpa [Compare, List.mem_filter] using hx2
    rw [e1]
    have e2 : (Compare oldS newS).removed
        = oldS.filter (fun s => !newS.contains s) := rfl
    rw [e2]
    exact length_filter_split _ _

/-- Witness for C7 at spec scenario 5: `old = {a,b,c}`, `new = {b,c,d}` —
the change percentage equals `100·(1+1)/6`. -/
theorem diff_compare_correct_witness :
    (Compare ["a", "b", "c"] ["b", "c", "d"]).changePercent
      = 100 * (((Compare ["a", "b", "c"] ["b", "c", "d"]).added.length : ℚ)
            + ((Compare ["a", "b", "c"] ["b", "c", "d"]).removed.length : ℚ))
          / (((["a", "b", "c"] : List String).length : ℚ)
            + ((["b", "c", "d"] : List String).length : ℚ)) :=
  (diff_compare_correct ["a", "b", "c"] ["b", "c", "d"] (by decide)
    (by decide)).2.2.2.2.1 (by decide)

/-! ### Properties of the seen-set append loops of `Deduplicator.merge` -/

/-- Membership in `dedupAppend` is membership in either input. -/
lemma mem_dedupAppend {x : String} : ∀ {b a : List String},
    x ∈ dedupAppend a b ↔ x ∈ a ∨ x ∈ b
  | [], a => by simp [dedupAppend]
  | y :: bs, a => by
      simp only [dedupAppend, List.foldl_cons]
      by_cases hy : y ∈ a
      · rw [if_pos hy]
        have ih := mem_dedupAppend (x := x) (b := bs) (a := a)
        simp only [dedupAppend] at ih
        rw [ih]
        constructor
        · rintro (h | h)
          · exact Or.inl h
          · exact Or.inr (List.mem_cons_of_mem _ h)
        · rintro (h | h)
          · exact Or.inl h
          · rcases List.mem_cons.mp h with rfl | h
            · exact Or.inl hy
            · exact Or.inr h
      · rw [if_neg hy]
        have ih := mem_dedupAppend (x := x) (b := bs) (a := a ++ [y])
        simp only [dedupAppend] at ih
        rw [ih]
        simp only [List.mem_append, List.mem_singleton, List.mem_cons]
        tauto

/-- `dedupAppend` keeps a duplicate-free accumulator duplicate-free. -/
lemma dedupAppend_nodup : ∀ {b a : List String}, a.Nodup → (dedupAppend a b).Nodup
  | [], a, ha => ha
  | y :: bs, a, ha => by
      simp only [dedupAppend, List.foldl_cons]
      by_cases hy : y ∈ a
      · rw [if_pos hy]
        exact dedupAppend_nodup ha
      · rw [if_neg hy]
        refine dedupAppend_nodup ?_
        simp [List.nodup_append, ha, hy]

/-- `dedupAppend` adds nothing when every element is already present. -/
lemma dedupAppend_eq_self : ∀ {b a : List String},
    (∀ x ∈ b, x ∈ a) → dedupAppend a b = a
  | [], a, _ => rfl
  | y :: bs, a, h => by
      simp only [dedupAppend, List.foldl_cons]
      rw [if_pos (h y (List.mem_cons_self y bs))]
      exact dedupAppend_eq_self (fun x hx => h x (List.mem_cons_of_mem _ hx))

/-- Appending a duplicate-free, disjoint list via `dedupAppend` is plain
concatenation. -/
lemma dedupAppend_of_disjoint : ∀ {b a : List String},
    b.Nodup → (∀ x ∈ b, x ∉ a) → dedupAppend a b = a ++ b
  | [], a, _, _ => by simp [dedupAppend]
  | y :: bs, a, hb, hdisj => by
      simp only [dedupAppend, List.foldl_cons]
      rw [if_neg (hdisj y (List.mem_cons_self y bs))]
      have hb' := (List.nodup_cons.mp hb).2
      have hy := (List.nodup_cons.mp hb).1
      have := dedupAppend_of_disjoint (a := a ++ [y]) hb' (by
        intro x hx
        simp only [List.mem_append, List.mem_singleton]
        rintro (hxa | rfl)
        · exact hdisj x (List.mem_cons_of_mem _ hx) hxa
        · exact hy hx)
      simp only [dedupAppend] at this
      rw [this, List.append_assoc]
      rfl

/-- Rebuilding a duplicate-free list from an empty seen set is the
identity. -/
lemma dedupAppend_nil (a : List String) (ha : a.Nodup) : dedupAppend [] a = a := by
  have := dedupAppend_of_disjoint (b := a) (a := []) ha (by simp)
  simpa using this

/-- Membership in `mergeStringSlice` is membership in either input. -/
lemma mem_mergeStringSlice {x : String} {a b : List String} :
    x ∈ mergeStringSlice a b ↔ x ∈ a ∨ x ∈ b := by
  simp [mergeStringSlice, mem_dedupAppend]

/-- `mergeStringSlice` output has no duplicates. -/
lemma mergeStringSlice_nodup (a b : List String) : (mergeStringSlice a b).Nodup :=
  dedupAppend_nodup (dedupAppend_nodup List.nodup_nil)

/-- `mergeStringSlice` is the identity on a duplicate-free left input that
already contains the right input. -/
lemma mergeStringSlice_eq_self {a b : List String} (ha : a.Nodup)
    (h : ∀ x ∈ b, x ∈ a) : mergeStringSlice a b = a := by
  rw [mergeStringSlice, dedupAppend_nil a ha, dedupAppend_eq_self h]

/-- Re-merging the same DNS batch is a no-op. -/
lemma mergeDNSRecords_idem (td sd : DNSRecords) :
    mergeDNSRecords (mergeDNSRecords td sd) sd = mergeDNSRecords td sd := by
  simp only [mergeDNSRecords, DNSRecords.mk.injEq]
  refine ⟨?_, ?_, ?_, ?_, ?_, ?_⟩ <;>
    exact mergeStringSlice_eq_self (mergeStringSlice_nodup _ _)
      (fun x hx => mem_mergeStringSlice.mpr (Or.inr hx))

/-- Merging a duplicate-free DNS record set into itself is a no-op. -/
lemma mergeDNSRecords_self (sd : DNSRecords) (ha : sd.a.Nodup)
    (haaaa : sd.aaaa.Nodup) (hc : sd.cname.Nodup) (hm : sd.mx.Nodup)
    (hn : sd.ns.Nodup) (ht : sd.txt.Nodup) :
    mergeDNSRecords sd sd = sd := by
  obtain ⟨la, laaaa, lc, lm, ln, lt⟩ := sd
  simp only [mergeDNSRecords, DNSRecords.mk.injEq]
  exact ⟨mergeStringSlice_eq_self ha (fun x hx => hx),
    mergeStringSlice_eq_self haaaa (fun x hx => hx),
    mergeStringSlice_eq_self hc (fun x hx => hx),
    mergeStringSlice_eq_self hm (fun x hx => hx),
    mergeStringSlice_eq_self hn (fun x hx => hx),
    mergeStringSlice_eq_self ht (fun x hx => hx)⟩

/-! ### Properties of the metadata first-write-wins loop -/

/-- A key present in the accumulator stays present through
`mergeMetadata`. -/
lemma mergeMetadata_keyMem {k : String} : ∀ {src target : List (String × String)},
    target.any (fun e => e.1 == k) = true →
    (mergeMetadata target src).any (fun e => e.1 == k) = true
  | [], _, h => h
  | kv :: rest, target, h => by
      simp only [mergeMetadata, List.foldl_cons]
      by_cases hk : target.any (fun e => e.1 == kv.1)
      · rw [if_pos hk]
        exact mergeMetadata_keyMem h
      · rw [if_neg hk]
        refine mergeMetadata_keyMem ?_
        simp only [List.any_append, h, Bool.true_or]

/-- After `mergeMetadata`, every key of the merged-in map is present. -/
lemma mergeMetadata_covers : ∀ {src target : List (String × String)},
    ∀ kv ∈ src, (mergeMetadata target src).any (fun e => e.1 == kv.1) = true
  | kv₀ :: rest, target, kv, hkv => by
      simp only [mergeMetadata, List.foldl_cons]
      rcases List.mem_cons.mp hkv with rfl | hkv'
      · by_cases hk : target.any (fun e => e.1 == kv.1)
        · rw [if_pos hk]
          exact mergeMetadata_keyMem hk
        · rw [if_neg hk]
          refine mergeMetadata_keyMem ?_
          simp [List.any_append]
      · by_cases hk : target.any (fun e => e.1 == kv₀.1)
        · rw [if_pos hk]
          exact mergeMetadata_covers kv hkv'
        · rw [if_neg hk]
          exact mergeMetadata_covers kv hkv'

/-- `mergeMetadata` adds nothing when every key is already present. -/
lemma mergeMetadata_eq_self : ∀ {src target : List (String × String)},
    (∀ kv ∈ src, target.any (fun e => e.1 == kv.1) = true) →
    mergeMetadata target src = target
  | [], _, _ => rfl
  | kv :: rest, target, h => by
      simp only [mergeMetadata, List.foldl_cons]
      rw [if_pos (h kv (List.mem_cons_self kv rest))]
      exact mergeMetadata_eq_self (fun kv' hkv' => h kv' (List.mem_cons_of_mem _ hkv'))

/-- The duplicate source batch used by the C4 counterexample. -/
def xBatch : SourceResult where
  source := "A"
  subdomains := ["x.ex.com"]

/-- C4 counterexample: `processSourceResult` appends the reporting source
unconditionally, so processing the same batch twice yields a different
table than processing it once and leaves a duplicated `sources` list. -/
theorem process_batch_twice_duplicates_sources :
    processSourceResult (processSourceResult [] xBatch 0) xBatch 0
        ≠ processSourceResult [] xBatch 0
    ∧ (processSourceResult (processSourceResult [] xBatch 0) xBatch 0).map
        (fun e => e.2.sources) = [["A", "A"]]
    ∧ ¬(["A", "A"] : List String).Nodup := by
  refine ⟨by decide, by decide, by decide⟩

/-- C4 as amended: the orchestrator's `processSourceResult` is neither
idempotent nor duplicate-free on `sources` (see the counterexample); the
DEDUPLICATOR's `merge`, by contrast, keeps `sources` duplicate-free (for a
duplicate-free target), is idempotent — re-merging the same record is a
no-op, given duplicate-free DNS record lists in the incoming record — and
is commutative on `sources` at the level of membership. -/
theorem dedup_merge_amended (target source : Subdomain)
    (h1 : target.sources.Nodup)
    (h2 : ∀ r, source.dnsRecords = some r →
        r.a.Nodup ∧ r.aaaa.Nodup ∧ r.cname.Nodup ∧ r.mx.Nodup
          ∧ r.ns.Nodup ∧ r.txt.Nodup) :
    (dedupMerge target source).sources.Nodup
    ∧ dedupMerge (dedupMerge target source) source = dedupMerge target source
    ∧ (∀ x, x ∈ (dedupMerge target source).sources
        ↔ x ∈ (dedupMerge source target).sources) := by
  refine ⟨dedupAppend_nodup h1, ?_, ?_⟩
  · simp only [dedupMerge, Subdomain.mk.injEq, true_and, and_true]
    refine ⟨?_, ?_, ?_, ?_, ?_, ?_, ?_, ?_, ?_⟩
    · -- ip
      by_cases hip : source.ip.length > 0
      · simp only [if_pos hip]
        exact dedupAppend_eq_self (fun x hx => mem_dedupAppend.mpr (Or.inr hx))
      · simp only [if_neg hip]
    · -- sources
      exact dedupAppend_eq_self (fun x hx => mem_dedupAppend.mpr (Or.inr hx))
    · -- validated
      cases target.validated <;> cases source.validated <;> rfl
    · -- firstSeen
      split_ifs <;> omega
    · -- lastSeen
      split_ifs <;> omega
    · -- http
      cases hsh : source.http with
      | none => rfl
      | some sh =>
          cases hth : target.http with
          | none => simp
          | some th =>
              by_cases hst : sh.statusCode > th.statusCode <;> simp [hst]
    · -- tls
      cases hst : source.tls with
      | none => rfl
      | some st =>
          by_cases hv : st.valid
          · cases htt : target.tls with
            | none => simp [hv]
            | some tt =>
                by_cases htv : tt.valid <;> simp [hv, htv]
          · simp [hv]
    · -- dnsRecords
      cases hsd : source.dnsRecords with
      | none => rfl
      | some sd =>
          obtain ⟨ha, haaaa, hc, hm, hn, ht⟩ := h2 sd hsd
          cases htd : target.dnsRecords with
          | none => simp [mergeDNSRecords_self sd ha haaaa hc hm hn ht]
          | some td => simp [mergeDNSRecords_idem]
    · -- metadata
      exact mergeMetadata_eq_self (fun kv hkv => mergeMetadata_covers kv hkv)
  · intro x
    simp only [dedupMerge, mem_dedupAppend]
    tauto

/-- Concrete merge target for the C4 witness. -/
def mergeTarget0 : Subdomain :=
  { baseSubdomain "x.ex.com" with sources := ["A"], ip := ["1.1.1.1"] }

/-- Concrete merge source for the C4 witness. -/
def mergeSource0 : Subdomain :=
  { baseSubdomain "x.ex.com" with sources := ["B"], ip := ["2.2.2.2"] }

/-- Witness for C4 (amended) at concrete records. -/
theorem dedup_merge_amended_witness :
    (dedupMerge mergeTarget0 mergeSource0).sources.Nodup
    ∧ dedupMerge (dedupMerge mergeTarget0 mergeSource0) mergeSource0
        = dedupMerge mergeTarget0 mergeSource0 :=
  ⟨(dedup_merge_amended mergeTarget0 mergeSource0 (by decide)
      (fun r hr => nomatch hr)).1,
   (dedup_merge_amended mergeTarget0 mergeSource0 (by decide)
      (fun r hr => nomatch hr)).2.1⟩

/-! ### Key/domain invariants of the central table -/

/-- A successful map lookup returns the record stored under that key. -/
lemma tableLookup_domain {t : List (String × Subdomain)} {k : String}
    {v : Subdomain} (hinv : ∀ e ∈ t, (e : String × Subdomain).2.domain = e.1)
    (h : tableLookup t k = some v) : v.domain = k := by
  unfold tableLookup at h
  cases hf : t.find? (fun e => e.1 == k) with
  | none => rw [hf] at h; cases h
  | some e =>
      rw [hf] at h
      cases h
      have h1 := List.find?_some hf
      have h2 : e ∈ t := List.mem_of_find?_eq_some hf
      rw [← eq_of_beq h1]
      exact hinv e h2

/-- Every element of a `tableInsert` result is an old binding or the new
one. -/
lemma mem_tableInsert {t : List (String × Subdomain)} {k : String}
    {v : Subdomain} : ∀ e ∈ tableInsert t k v, e ∈ t ∨ e = (k, v) := by
  intro e he
  unfold tableInsert at he
  split at he
  · rcases List.mem_map.mp he with ⟨e₀, he₀, rfl⟩
    by_cases hk : e₀.1 == k
    · rw [if_pos hk]
      exact Or.inr rfl
    · rw [if_neg hk]
      exact Or.inl he₀
  · rcases List.mem_append.mp he with h | h
    · exact Or.inl h
    · exact Or.inr (List.mem_singleton.mp h)

/-- `processOne` keeps every stored record's `domain` equal to its key. -/
lemma processOne_inv {t : List (String × Subdomain)} (src : String) (now : Nat)
    (c : String) (hinv : ∀ e ∈ t, (e : String × Subdomain).2.domain = e.1) :
    ∀ e ∈ processOne src now t c, (e : String × Subdomain).2.domain = e.1 := by
  unfold processOne
  cases hl : tableLookup t c with
  | none =>
      intro e he
      rcases List.mem_append.mp he with h | h
      · exact hinv e h
      · rcases List.mem_singleton.mp h with rfl
        rfl
  | some existing =>
      have hd : existing.domain = c := tableLookup_domain hinv hl
      intro e he
      rcases mem_tableInsert e he with h | rfl
      · exact hinv e h
      · exact hd

/-- Every key of `processOne`'s output is an old key or the candidate. -/
lemma processOne_keys {t : List (String × Subdomain)} (src : String) (now : Nat)
    (c : String) :
    ∀ e ∈ processOne src now t c,
      (e : String × Subdomain).1 ∈ t.map Prod.fst ∨ e.1 = c := by
  unfold processOne
  cases hl : tableLookup t c with
  | none =>
      intro e he
      rcases List.mem_append.mp he with h | h
      · exact Or.inl (List.mem_map.mpr ⟨e, h, rfl⟩)
      · rcases List.mem_singleton.mp h with rfl
        exact Or.inr rfl
  | some existing =>
      intro e he
      rcases mem_tableInsert e he with h | rfl
      · exact Or.inl (List.mem_map.mpr ⟨e, h, rfl⟩)
      · exact Or.inr rfl

/-- Folding a batch through `processOne`: stored domains equal their keys,
and every key is an old key or a candidate of the batch — stored verbatim. -/
lemma processFold_inv (src : String) (now : Nat) :
    ∀ (cands : List String) (t : List (String × Subdomain)),
      (∀ e ∈ t, (e : String × Subdomain).2.domain = e.1) →
      ∀ e ∈ List.foldl (processOne src now) t cands,
        (e : String × Subdomain).2.domain = e.1
          ∧ (e.1 ∈ t.map Prod.fst ∨ e.1 ∈ cands)
  | [], t, hinv, e, he => ⟨hinv e he, Or.inl (List.mem_map.mpr ⟨e, he, rfl⟩)⟩
  | c :: cs, t, hinv, e, he => by
      rw [List.foldl_cons] at he
      have ih := processFold_inv src now cs (processOne src now t c)
        (processOne_inv src now c hinv) e he
      refine ⟨ih.1, ?_⟩
      rcases ih.2 with h | h
      · rcases List.mem_map.mp h with ⟨e₀, he₀, hkey⟩
        rcases processOne_keys src now c e₀ he₀ with h' | h'
        · exact Or.inl (hkey ▸ h')
        · refine Or.inr ?_
          rw [← hkey, h']
          exact List.mem_cons_self _ _
      · exact Or.inr (List.mem_cons_of_mem _ h)

/-- `dedupStep` keeps every stored record's `domain` equal to its key. -/
lemma dedupStep_inv {m : List (String × Subdomain)} (sub : Subdomain)
    (hinv : ∀ e ∈ m, (e : String × Subdomain).2.domain = e.1) :
    ∀ e ∈ dedupStep m sub, (e : String × Subdomain).2.domain = e.1 := by
  unfold dedupStep
  dsimp only
  cases hl : tableLookup m (normalizeDomain sub.domain) with
  | none =>
      intro e he
      rcases List.mem_append.mp he with h | h
      · exact hinv e h
      · rcases List.mem_singleton.mp h with rfl
        rfl
  | some existing =>
      have hd : existing.domain = normalizeDomain sub.domain :=
        tableLookup_domain hinv hl
      intro e he
      rcases mem_tableInsert e he with h | rfl
      · exact hinv e h
      · exact hd

/-- Every key of `dedupStep`'s output is an old key or the normalized
domain of the incoming record. -/
lemma dedupStep_keys {m : List (String × Subdomain)} (sub : Subdomain) :
    ∀ e ∈ dedupStep m sub,
      (e : String × Subdomain).1 ∈ m.map Prod.fst
        ∨ e.1 = normalizeDomain sub.domain := by
  unfold dedupStep
  dsimp only
  cases hl : tableLookup m (normalizeDomain sub.domain) with
  | none =>
      intro e he
      rcases List.mem_append.mp he with h | h
      · exact Or.inl (List.mem_map.mpr ⟨e, h, rfl⟩)
      · rcases List.mem_singleton.mp h with rfl
        exact Or.inr rfl
  | some existing =>
      intro e he
      rcases mem_tableInsert e he with h | rfl
      · exact Or.inl (List.mem_map.mpr ⟨e, h, rfl⟩)
      · exact Or.inr rfl

/-- Folding records through `dedupStep`: every stored domain equals its key
and arose as the normalized domain of some input record (or was already in
the map). -/
lemma dedupFold_inv :
    ∀ (subs : List Subdomain) (m : List (String × Subdomain)),
      (∀ e ∈ m, (e : String × Subdomain).2.domain = e.1) →
      ∀ e ∈ List.foldl dedupStep m subs,
        (e : String × Subdomain).2.domain = e.1
          ∧ (e.1 ∈ m.map Prod.fst
              ∨ ∃ s ∈ subs, e.1 = normalizeDomain s.domain)
  | [], m, hinv, e, he => ⟨hinv e he, Or.inl (List.mem_map.mpr ⟨e, he, rfl⟩)⟩
  | sub :: rest, m, hinv, e, he => by
      rw [List.foldl_cons] at he
      have ih := dedupFold_inv rest (dedupStep m sub)
        (dedupStep_inv sub hinv) e he
      refine ⟨ih.1, ?_⟩
      rcases ih.2 with h | ⟨s, hs, hse⟩
      · rcases List.mem_map.mp h with ⟨e₀, he₀, hkey⟩
        rcases dedupStep_keys sub e₀ he₀ with h' | h'
        · exact Or.inl (hkey ▸ h')
        · exact Or.inr ⟨sub, List.mem_cons_self _ _, hkey ▸ h'⟩
      · exact Or.inr ⟨s, List.mem_cons_of_mem _ hs, hse⟩

/-- The un-canonicalized batch used by the C5 counterexample. -/
def rawBatch : SourceResult where
  source := "A"
  subdomains := [" *.Foo.Example.Com"]

/-- C5 counterexample: `processSourceResult` stores the reported candidate
verbatim — no trimming, lowercasing or `*.`-stripping — and even the
deduplicator's normalization only trims and lowercases, keeping the `*.`
prefix. -/
theorem domains_inserted_uncanonicalized :
    (processSourceResult [] rawBatch 0).map (fun e => e.2.domain)
        = [" *.Foo.Example.Com"]
    ∧ " *.Foo.Example.Com" ≠ "foo.example.com"
    ∧ (Deduplicate [baseSubdomain "*.Foo.Example.Com "]).map (fun s => s.domain)
        = ["*.foo.example.com"]
    ∧ "*.foo.example.com" ≠ "foo.example.com" := by
  refine ⟨by decide, by decide, by decide, by decide⟩

/-- C5 as amended: the orchestrator inserts every candidate under the
exact string the source reported (the stored record's `domain` equals its
key, which is a pre-existing key or a verbatim candidate); the
deduplicator's `Deduplicate` pass canonicalizes only to
`strings.ToLower(strings.TrimSpace(d))` — it never strips a leading `*.`
prefix. -/
theorem canonicalization_amended (t : List (String × Subdomain))
    (result : SourceResult) (now : Nat) (k : String) (v : Subdomain)
    (subs : List Subdomain) (w : Subdomain)
    (hinv : ∀ e ∈ t, (e : String × Subdomain).2.domain = e.1) :
    ((k, v) ∈ processSourceResult t result now →
      v.domain = k ∧ (k ∈ t.map Prod.fst ∨ k ∈ result.subdomains))
    ∧ (w ∈ Deduplicate subs → ∃ s ∈ subs, w.domain = normalizeDomain s.domain) := by
  constructor
  · intro h
    exact processFold_inv result.source now result.subdomains t hinv (k, v) h
  · intro h
    rcases List.mem_map.mp h with ⟨e, he, rfl⟩
    have := dedupFold_inv subs [] (by simp) e he
    rcases this.2 with h' | ⟨s, hs, hse⟩
    · simp at h'
    · exact ⟨s, hs, this.1.trans hse⟩

/-- Witness for C5 (amended): the deduplicated form of `" Www.Ex.Com"` is
its trimmed, lowercased image. -/
theorem canonicalization_amended_witness :
    ∃ s ∈ [baseSubdomain " Www.Ex.Com"],
      (baseSubdomain "www.ex.com").domain = normalizeDomain s.domain :=
  (canonicalization_amended [] rawBatch 0 "k" (baseSubdomain "k")
      [baseSubdomain " Www.Ex.Com"] (baseSubdomain "www.ex.com")
      (fun e he => nomatch he)).2 (by decide)

end Recon
